import Mathlib

/-!
Shallow embedding of `memcache/cache.go` (package `memcache` of
go-memorycache-manager): an in-process key-value cache with per-entry TTL
expiration and a periodic background sweep.

Modelling conventions:
* Timestamps and durations are `Int` nanoseconds (Go `int64` / `time.Duration`);
  the algorithms never rely on 64-bit wraparound, so overflow is not modelled.
* The Go map `map[string]Value` is an association list `List (String × Value α)`
  with unique keys (`KeysNodup`); Go map assignment / `delete` become
  `setKey` / `eraseKey`.
* Every operation is a function of the current wall clock `now`
  (Go reads `time.Now().UnixNano()` at the corresponding points; `Set` calls
  `time.Now()` twice — once for the expiry, once for `CreatedAt` — the two
  readings are identified here since no property distinguishes them).
* Each method is state-passing: it returns its result paired with the cache
  after the call, so mutation (and its absence) is explicit.
* The `sync.RWMutex` is not modelled: each operation is a single atomic step.
* `defaultSize` (a capacity hint) and `runtime.GC()` have no observable effect
  on the cache contents and are dropped.
-/

set_option linter.dupNamespace false

namespace Memcache

/-- Association-list lookup, modelling Go `val, ok := c.m[key]`. -/
def lookupKey {β : Type} (k : String) : List (String × β) → Option β
  | [] => none
  | (k', v) :: rest => if k' = k then some v else lookupKey k rest

/-- Removal of a key, modelling Go `delete(c.m, k)`. -/
def eraseKey {β : Type} (k : String) : List (String × β) → List (String × β)
  | [] => []
  | (k', v) :: rest => if k' = k then eraseKey k rest else (k', v) :: eraseKey k rest

/-- Map assignment, modelling Go `c.m[key] = v` (overwrites any previous entry). -/
def setKey {β : Type} (k : String) (v : β) (l : List (String × β)) : List (String × β) :=
  (k, v) :: eraseKey k l

/-- Number of entries stored under key `k`. -/
def countKey {β : Type} (k : String) : List (String × β) → Nat
  | [] => 0
  | (k', _) :: rest => (if k' = k then 1 else 0) + countKey k rest

/-- The Go-map invariant: the association list holds at most one entry per key. -/
def KeysNodup {β : Type} (l : List (String × β)) : Prop :=
  (l.map Prod.fst).Nodup

/-- Go `type Value struct`: payload, creation time, absolute expiry (`0` = never). -/
structure Value (α : Type) where
  Value : α
  CreatedAt : Int
  Expiration : Int
  deriving Repr, DecidableEq

/-- Go `type Cache struct` (the `sync.RWMutex` field is not modelled). -/
structure Cache (α : Type) where
  defaultExpiration : Int
  cleanupInterval : Int
  m : List (String × Value α)
  deriving Repr, DecidableEq

/-- Go error values `ErrKeyNotFound` and `ErrCacheIsOut`. -/
inductive CacheError where
  | ErrKeyNotFound
  | ErrCacheIsOut
  deriving Repr, DecidableEq

variable {α : Type}

/-- Go `NewCache` (the `size` capacity hint has no semantic content; the
background task started by `StartGC` is modelled by `GCstep` below). -/
def NewCache (α : Type) (expiration cleanupInterval : Int) : Cache α :=
  { defaultExpiration := expiration, cleanupInterval := cleanupInterval, m := [] }

/-- Go `Set`: zero `duration` is replaced by `defaultExpiration`; a positive
effective duration yields `expiration = now + duration`, otherwise the
`var expiration int64` zero value ("never expires") is kept. -/
def Set (c : Cache α) (key : String) (value : α) (duration : Int) (now : Int) : Cache α :=
  let d := if duration = 0 then c.defaultExpiration else duration
  let expiration : Int := if d > 0 then now + d else 0
  { c with m := setKey key { Value := value, CreatedAt := now, Expiration := expiration } c.m }

/-- Go `Get`: absent key gives `ErrKeyNotFound`; a positive expiry in the past
gives `ErrCacheIsOut`; otherwise the payload. The cache is not mutated. -/
def Get (c : Cache α) (key : String) (now : Int) : Except CacheError α × Cache α :=
  match lookupKey key c.m with
  | none => (.error .ErrKeyNotFound, c)
  | some val =>
    if val.Expiration > 0 ∧ now > val.Expiration then (.error .ErrCacheIsOut, c)
    else (.ok val.Value, c)

/-- Go `v, _ := c.Get(key)`: the error is discarded and `v` is `nil` on error. -/
def swallowErr : Except CacheError α → Option α
  | .ok v => some v
  | .error _ => none

/-- Go `GetMulti`: one `Get` per key in order, errors swallowed into `nil`. -/
def GetMulti (c : Cache α) (keys : List String) (now : Int) :
    List (Option α) × Cache α :=
  match keys with
  | [] => ([], c)
  | key :: rest =>
    let r := Get c key now
    let rs := GetMulti r.2 rest now
    (swallowErr r.1 :: rs.1, rs.2)

/-- Go `Delete`: `ErrKeyNotFound` when absent, otherwise removes the entry. -/
def Delete (c : Cache α) (key : String) : Option CacheError × Cache α :=
  match lookupKey key c.m with
  | none => (some .ErrKeyNotFound, c)
  | some _ => (none, { c with m := eraseKey key c.m })

/-- Go `IsExist`: presence only, expiry is not consulted. -/
def IsExist (c : Cache α) (key : String) : Bool × Cache α :=
  ((lookupKey key c.m).isSome, c)

/-- Go `Expire`: `ErrKeyNotFound` when absent; otherwise `true` iff
`now > Expiration && Expiration > 0`. -/
def Expire (c : Cache α) (key : String) (now : Int) :
    Except CacheError Bool × Cache α :=
  match lookupKey key c.m with
  | none => (.error .ErrKeyNotFound, c)
  | some val =>
    if now > val.Expiration ∧ val.Expiration > 0 then (.ok true, c)
    else (.ok false, c)

/-- Go `FlushAll`: the map is replaced by a fresh empty one (`defaultSize` is
only a capacity hint and `runtime.GC()` has no observable effect). -/
def FlushAll (c : Cache α) : Cache α :=
  { c with m := [] }

/-- Go `expiredKeys`: keys whose entry satisfies
`time.Now().UnixNano() > i.Expiration && i.Expiration > 0` at scan time. -/
def expiredKeys (c : Cache α) (now : Int) : List String :=
  (c.m.filter (fun kv => decide (now > kv.2.Expiration ∧ kv.2.Expiration > 0))).map Prod.fst

/-- Go `clearItems`: deletes every key of the list from the map. -/
def clearItems (c : Cache α) (keys : List String) : Cache α :=
  { c with m := keys.foldl (fun m k => eraseKey k m) c.m }

/-- One iteration of the Go `GC` loop body after the tick: `none` models the
`return` on an empty map (the task terminates); otherwise the expired keys
found by the scan are cleared (skipping the call when none were found). -/
def GCstep (c : Cache α) (now : Int) : Option (Cache α) :=
  if c.m.isEmpty then none
  else if (expiredKeys c now).isEmpty then some c
  else some (clearItems c (expiredKeys c now))

/-! Helper lemmas about the association-list map operations. -/

theorem lookupKey_eraseKey_self {β : Type} (k : String) (l : List (String × β)) :
    lookupKey k (eraseKey k l) = none := by
  induction l with
  | nil => rfl
  | cons kv rest ih =>
    obtain ⟨k', v⟩ := kv
    by_cases h : k' = k <;> simp [eraseKey, h, lookupKey, ih]

theorem lookupKey_eraseKey_ne {β : Type} {k k' : String} (h : k' ≠ k)
    (l : List (String × β)) : lookupKey k' (eraseKey k l) = lookupKey k' l := by
  induction l with
  | nil => rfl
  | cons kv rest ih =>
    obtain ⟨k₀, v⟩ := kv
    by_cases h0 : k₀ = k
    · subst h0
      simp [eraseKey, lookupKey, Ne.symm h, ih]
    · by_cases h1 : k₀ = k' <;> simp [eraseKey, lookupKey, h0, h1, h, ih]

theorem lookupKey_setKey_self {β : Type} (k : String) (v : β) (l : List (String × β)) :
    lookupKey k (setKey k v l) = some v := by
  simp [setKey, lookupKey]

theorem lookupKey_setKey_ne {β : Type} {k k' : String} (h : k' ≠ k) (v : β)
    (l : List (String × β)) : lookupKey k' (setKey k v l) = lookupKey k' l := by
  simp [setKey, lookupKey, Ne.symm h, lookupKey_eraseKey_ne h]

theorem countKey_eraseKey_self {β : Type} (k : String) (l : List (String × β)) :
    countKey k (eraseKey k l) = 0 := by
  induction l with
  | nil => rfl
  | cons kv rest ih =>
    obtain ⟨k', v⟩ := kv
    by_cases h : k' = k <;> simp [eraseKey, h, countKey, ih]

theorem countKey_setKey_self {β : Type} (k : String) (v : β) (l : List (String × β)) :
    countKey k (setKey k v l) = 1 := by
  simp [setKey, countKey, countKey_eraseKey_self]

theorem mem_keys_eraseKey {β : Type} {a k : String} {l : List (String × β)}
    (h : a ∈ (eraseKey k l).map Prod.fst) : a ∈ l.map Prod.fst := by
  induction l with
  | nil => simp [eraseKey] at h
  | cons kv rest ih =>
    obtain ⟨k', v⟩ := kv
    by_cases h0 : k' = k
    · simp only [eraseKey, if_pos h0] at h
      simp [ih h]
    · simp only [eraseKey, if_neg h0, List.map_cons, List.mem_cons] at h
      rcases h with h | h
      · simp [h]
      · simp [ih h]

theorem not_mem_keys_eraseKey_self {β : Type} (k : String) (l : List (String × β)) :
    k ∉ (eraseKey k l).map Prod.fst := by
  induction l with
  | nil => simp [eraseKey]
  | cons kv rest ih =>
    obtain ⟨k', v⟩ := kv
    by_cases h : k' = k <;> simp [eraseKey, h, ih]
    exact fun h' => h h'.symm

theorem keysNodup_eraseKey {β : Type} {l : List (String × β)} (k : String)
    (h : KeysNodup l) : KeysNodup (eraseKey k l) := by
  induction l with
  | nil => simpa [eraseKey] using h
  | cons kv rest ih =>
    obtain ⟨k', v⟩ := kv
    simp only [KeysNodup, List.map_cons, List.nodup_cons] at h
    by_cases h0 : k' = k
    · simpa [eraseKey, h0] using ih h.2
    · simp only [eraseKey, if_neg h0, KeysNodup, List.map_cons, List.nodup_cons]
      exact ⟨fun hm => h.1 (mem_keys_eraseKey hm), ih h.2⟩

theorem keysNodup_setKey {β : Type} {l : List (String × β)} (k : String) (v : β)
    (h : KeysNodup l) : KeysNodup (setKey k v l) := by
  simp only [setKey, KeysNodup, List.map_cons, List.nodup_cons]
  exact ⟨not_mem_keys_eraseKey_self k l, keysNodup_eraseKey k h⟩

theorem mem_of_lookupKey {β : Type} {k : String} {v : β} {l : List (String × β)}
    (h : lookupKey k l = some v) : (k, v) ∈ l := by
  induction l with
  | nil => simp [lookupKey] at h
  | cons kv rest ih =>
    obtain ⟨k', v'⟩ := kv
    by_cases h0 : k' = k
    · subst h0
      have hv : v' = v := by simpa [lookupKey] using h
      subst hv
      exact List.mem_cons_self _ _
    · simp only [lookupKey, if_neg h0] at h
      simp [ih h]

theorem lookupKey_of_mem_nodup {β : Type} {k : String} {v : β} {l : List (String × β)}
    (hn : KeysNodup l) (h : (k, v) ∈ l) : lookupKey k l = some v := by
  induction l with
  | nil => simp at h
  | cons kv rest ih =>
    obtain ⟨k', v'⟩ := kv
    simp only [KeysNodup, List.map_cons, List.nodup_cons] at hn
    rcases List.mem_cons.mp h with h | h
    · obtain ⟨rfl, rfl⟩ := Prod.mk.injEq .. ▸ h
      simp [lookupKey]
    · have hne : k' ≠ k := by
        rintro rfl
        exact hn.1 (List.mem_map.mpr ⟨(k', v), h, rfl⟩)
      simp [lookupKey, hne, ih hn.2 h]

theorem lookupKey_eq_none_iff {β : Type} {k : String} {l : List (String × β)} :
    lookupKey k l = none ↔ k ∉ l.map Prod.fst := by
  induction l with
  | nil => simp [lookupKey]
  | cons kv rest ih =>
    obtain ⟨k', v⟩ := kv
    by_cases h : k' = k
    · subst h
      simp [lookupKey]
    · simp only [lookupKey, if_neg h, List.map_cons, List.mem_cons, ih]
      constructor
      · intro hk hor
        rcases hor with h1 | h2
        · exact h h1.symm
        · exact hk h2
      · intro hk hm
        exact hk (Or.inr hm)

theorem lookupKey_foldl_eraseKey {β : Type} (k : String) (keys : List String)
    (l : List (String × β)) :
    lookupKey k (keys.foldl (fun m kk => eraseKey kk m) l) =
      if k ∈ keys then none else lookupKey k l := by
  induction keys generalizing l with
  | nil => simp
  | cons k0 rest ih =>
    simp only [List.foldl_cons, ih, List.mem_cons]
    by_cases h : k = k0
    · subst h
      simp [lookupKey_eraseKey_self]
    · by_cases h1 : k ∈ rest <;> simp [h, h1, lookupKey_eraseKey_ne h]

theorem mem_expiredKeys_iff {α : Type} {c : Cache α} {now : Int} {k : String}
    (hn : KeysNodup c.m) :
    k ∈ expiredKeys c now ↔
      ∃ v, lookupKey k c.m = some v ∧ now > v.Expiration ∧ v.Expiration > 0 := by
  constructor
  · intro h
    simp only [expiredKeys, List.mem_map, List.mem_filter] at h
    obtain ⟨⟨k', v⟩, ⟨hmem, hexp⟩, hfst⟩ := h
    subst hfst
    exact ⟨v, lookupKey_of_mem_nodup hn hmem, by simpa using hexp⟩
  · rintro ⟨v, hl, hexp⟩
    simp only [expiredKeys, List.mem_map, List.mem_filter]
    exact ⟨(k, v), ⟨mem_of_lookupKey hl, by simpa using hexp⟩, rfl⟩

theorem Get_snd_eq {α : Type} (c : Cache α) (k : String) (now : Int) :
    (Get c k now).2 = c := by
  unfold Get
  cases lookupKey k c.m with
  | none => rfl
  | some v => by_cases h : v.Expiration > 0 ∧ now > v.Expiration <;> simp [h]

theorem Expire_snd_eq {α : Type} (c : Cache α) (k : String) (now : Int) :
    (Expire c k now).2 = c := by
  unfold Expire
  cases lookupKey k c.m with
  | none => rfl
  | some v => by_cases h : now > v.Expiration ∧ v.Expiration > 0 <;> simp [h]

theorem GetMulti_eq {α : Type} (c : Cache α) (keys : List String) (now : Int) :
    GetMulti c keys now = (keys.map (fun k => swallowErr (Get c k now).1), c) := by
  induction keys with
  | nil => rfl
  | cons k rest ih => simp only [GetMulti, Get_snd_eq, ih, List.map_cons]

/-! Sample caches used to instantiate the hypothesis-bearing theorems. -/

/-- Sample cache: key `"a"` expires at 5, key `"b"` never expires. -/
def sampleCache : Cache Nat :=
  { defaultExpiration := 0, cleanupInterval := 0,
    m := [("a", { Value := 7, CreatedAt := 0, Expiration := 5 }),
          ("b", { Value := 8, CreatedAt := 0, Expiration := 0 })] }

/-- Sample empty cache whose default TTL is the positive duration 10. -/
def sampleDefaultTTL : Cache Nat :=
  { defaultExpiration := 10, cleanupInterval := 0, m := [] }

/-- Sample cache for the sweep: `"a"` expired at time 10, `"b"` still fresh,
`"c"` never expires. -/
def sampleGC : Cache Nat :=
  { defaultExpiration := 0, cleanupInterval := 1,
    m := [("a", { Value := 1, CreatedAt := 0, Expiration := 5 }),
          ("b", { Value := 2, CreatedAt := 0, Expiration := 50 }),
          ("c", { Value := 3, CreatedAt := 0, Expiration := 0 })] }

/-! Claim theorems. -/

/-- C1: `Get` returns `ErrKeyNotFound` when the key is absent; when the key is
present but expired at `now` (`Expiration > 0` and `now` past it) it returns
`ErrCacheIsOut`, leaves the cache unchanged, and an immediately following
`IsExist` still reports `true`; when present and fresh it returns the stored
payload with no error. -/
theorem C1_get_contract (c : Cache α) (key : String) (now : Int) :
    (lookupKey key c.m = none → (Get c key now).1 = .error .ErrKeyNotFound) ∧
    (∀ v, lookupKey key c.m = some v → v.Expiration > 0 → now > v.Expiration →
      (Get c key now).1 = .error .ErrCacheIsOut ∧ (Get c key now).2 = c ∧
        (IsExist (Get c key now).2 key).1 = true) ∧
    (∀ v, lookupKey key c.m = some v → ¬(v.Expiration > 0 ∧ now > v.Expiration) →
      (Get c key now).1 = .ok v.Value) := by
  refine ⟨?_, ?_, ?_⟩
  · intro h
    simp [Get, h]
  · intro v hv h1 h2
    refine ⟨by simp [Get, hv, h1, h2], by simp [Get, hv, h1, h2], ?_⟩
    have h2c : (Get c key now).2 = c := by simp [Get, hv, h1, h2]
    simp [h2c, IsExist, hv]
  · intro v hv hne
    simp [Get, hv, hne]

/-- C1 witness: all three branches of the contract at concrete inputs. -/
theorem C1_get_contract_witness :
    (Get sampleCache "zz" 10).1 = .error .ErrKeyNotFound ∧
    ((Get sampleCache "a" 10).1 = .error .ErrCacheIsOut ∧
      (Get sampleCache "a" 10).2 = sampleCache ∧
      (IsExist (Get sampleCache "a" 10).2 "a").1 = true) ∧
    (Get sampleCache "b" 10).1 = .ok 8 :=
  ⟨(C1_get_contract sampleCache "zz" 10).1 (by decide),
   (C1_get_contract sampleCache "a" 10).2.1
     { Value := 7, CreatedAt := 0, Expiration := 5 } (by decide) (by decide) (by decide),
   (C1_get_contract sampleCache "b" 10).2.2
     { Value := 8, CreatedAt := 0, Expiration := 0 } (by decide) (by decide)⟩

/-- C2 (counterexample): with `ttl = 0` (which is `≤ 0`) and a cache whose
`defaultExpiration` is the positive 10, `Set` at time 0 then `Get` at time 20
returns `ErrCacheIsOut`, not the stored value: the defaultTTL substitution
makes the entry expire, contradicting the claim for ttl = 0. -/
theorem C2_counterexample :
    (0 : Int) ≤ 0 ∧
    (Get (Set sampleDefaultTTL "k" 5 0 0) "k" 20).1 = .error .ErrCacheIsOut ∧
    (Get (Set sampleDefaultTTL "k" 5 0 0) "k" 20).1 ≠ .ok 5 :=
  ⟨le_refl 0, rfl, fun h => Except.noConfusion h⟩

/-- C2 (amended): for every strictly negative ttl — or zero ttl when the
cache's `defaultExpiration` is non-positive — `Set` then `Get` returns the
stored value with no error at every later time: the entry never expires. -/
theorem C2_set_nonpositive_ttl_never_expires (c : Cache α) (k : String) (v : α)
    (ttl now later : Int)
    (h : ttl < 0 ∨ (ttl = 0 ∧ c.defaultExpiration ≤ 0)) :
    (Get (Set c k v ttl now) k later).1 = .ok v := by
  have hexp : (if (if ttl = 0 then c.defaultExpiration else ttl) > 0 then
      now + (if ttl = 0 then c.defaultExpiration else ttl) else 0) = 0 := by
    rcases h with h | ⟨h0, hd⟩
    · rw [if_neg (by omega : ¬ttl = 0), if_neg (by omega : ¬ttl > 0)]
    · subst h0
      rw [if_pos rfl, if_neg (by omega : ¬c.defaultExpiration > 0)]
  have hl : lookupKey k (Set c k v ttl now).m =
      some { Value := v, CreatedAt := now, Expiration := 0 } := by
    simp only [Set, lookupKey_setKey_self, hexp]
  simp [Get, hl]

/-- C2 witness: a negative ttl entry is still fresh far in the future. -/
theorem C2_set_nonpositive_ttl_never_expires_witness :
    (Get (Set sampleDefaultTTL "k" 5 (-1) 0) "k" 1000000).1 = .ok 5 :=
  C2_set_nonpositive_ttl_never_expires sampleDefaultTTL "k" 5 (-1) 0 1000000
    (Or.inl (by decide))

/-- C3: `Set` substitutes `defaultExpiration` exactly when the ttl argument is
zero; the stored `Expiration` is `now + ttl` when the effective ttl is
positive and the never-expires sentinel 0 otherwise; the new entry overwrites
any previous entry for the key (exactly one entry remains for it), other keys
are untouched, and key uniqueness is preserved. -/
theorem C3_set_spec (c : Cache α) (k : String) (v : α) (ttl now : Int) :
    lookupKey k (Set c k v ttl now).m =
      some { Value := v, CreatedAt := now,
             Expiration := if (if ttl = 0 then c.defaultExpiration else ttl) > 0 then
               now + (if ttl = 0 then c.defaultExpiration else ttl) else 0 } ∧
    countKey k (Set c k v ttl now).m = 1 ∧
    (∀ k', k' ≠ k → lookupKey k' (Set c k v ttl now).m = lookupKey k' c.m) ∧
    (KeysNodup c.m → KeysNodup (Set c k v ttl now).m) := by
  refine ⟨?_, ?_, ?_, ?_⟩
  · simp only [Set, lookupKey_setKey_self]
  · simp only [Set, countKey_setKey_self]
  · intro k' hk
    simp only [Set, lookupKey_setKey_ne hk]
  · intro h
    simpa only [Set] using keysNodup_setKey _ _ h

/-- C3 witness: overwriting `"a"` in the sample cache with ttl 0 substitutes
the default TTL 10, stores expiry `now + 10`, keeps other keys, and keeps
keys unique. -/
theorem C3_set_spec_witness :
    lookupKey "a" (Set sampleDefaultTTL "a" 9 0 100).m =
      some { Value := 9, CreatedAt := 100, Expiration := 110 } ∧
    countKey "a" (Set sampleDefaultTTL "a" (9 : Nat) 0 100).m = 1 ∧
    lookupKey "b" (Set sampleDefaultTTL "a" 9 0 100).m = lookupKey "b" sampleDefaultTTL.m ∧
    KeysNodup (Set sampleDefaultTTL "a" (9 : Nat) 0 100).m :=
  ⟨(C3_set_spec sampleDefaultTTL "a" 9 0 100).1,
   (C3_set_spec sampleDefaultTTL "a" 9 0 100).2.1,
   (C3_set_spec sampleDefaultTTL "a" 9 0 100).2.2.1 "b" (by decide),
   (C3_set_spec sampleDefaultTTL "a" 9 0 100).2.2.2 (by simp [sampleDefaultTTL, KeysNodup])⟩

/-- C4: an entry whose `Expiration` is non-positive is never reported expired,
at any current time: `Get` returns its payload (never `ErrCacheIsOut`),
`Expire` reports `false`, and the sweep's expired-key scan never selects its
key for deletion. -/
theorem C4_nonpositive_expiration_never_expires (c : Cache α) (k : String)
    (v : Value α) (now : Int) (hn : KeysNodup c.m)
    (hv : lookupKey k c.m = some v) (he : v.Expiration ≤ 0) :
    (Get c k now).1 = .ok v.Value ∧
    (Expire c k now).1 = .ok false ∧
    k ∉ expiredKeys c now := by
  have hne : ¬(v.Expiration > 0 ∧ now > v.Expiration) := by omega
  have hne2 : ¬(now > v.Expiration ∧ v.Expiration > 0) := by omega
  refine ⟨by simp [Get, hv, hne], by simp [Expire, hv, hne2], ?_⟩
  intro hk
  obtain ⟨w, hw, h1, h2⟩ := (mem_expiredKeys_iff hn).mp hk
  rw [hv] at hw
  obtain rfl : v = w := by simpa using hw
  omega

/-- C4 witness: the never-expiring entry `"b"` of the sample cache is fresh
even at time 999. -/
theorem C4_nonpositive_expiration_never_expires_witness :
    (Get sampleCache "b" 999).1 = .ok 8 ∧
    (Expire sampleCache "b" 999).1 = .ok false ∧
    "b" ∉ expiredKeys sampleCache 999 :=
  C4_nonpositive_expiration_never_expires sampleCache "b"
    { Value := 8, CreatedAt := 0, Expiration := 0 } 999
    (by unfold KeysNodup sampleCache; decide) (by decide) (by decide)

/-- C6: `Expire` returns `ErrKeyNotFound` when the key is absent, and
otherwise returns no error, reporting `true` exactly when the entry's
`Expiration` is strictly positive and `now` is strictly past it. -/
theorem C6_expire_contract (c : Cache α) (k : String) (now : Int) :
    (lookupKey k c.m = none → (Expire c k now).1 = .error .ErrKeyNotFound) ∧
    (∀ v, lookupKey k c.m = some v →
      ((Expire c k now).1 = .ok true ↔ (v.Expiration > 0 ∧ now > v.Expiration)) ∧
      ((Expire c k now).1 = .ok true ∨ (Expire c k now).1 = .ok false)) := by
  refine ⟨fun h => by simp [Expire, h], fun v hv => ?_⟩
  by_cases hc : now > v.Expiration ∧ v.Expiration > 0
  · have hr : (Expire c k now).1 = .ok true := by simp [Expire, hv, hc]
    exact ⟨by rw [hr]; simpa using ⟨hc.2, hc.1⟩, Or.inl hr⟩
  · have hr : (Expire c k now).1 = .ok false := by simp [Expire, hv, hc]
    refine ⟨?_, Or.inr hr⟩
    rw [hr]
    simp
    omega

/-- C6 witness: absent key `"zz"`, and the expired entry `"a"` at time 10. -/
theorem C6_expire_contract_witness :
    (Expire sampleCache "zz" 10).1 = .error .ErrKeyNotFound ∧
    ((Expire sampleCache "a" 10).1 = .ok true ↔ ((5 : Int) > 0 ∧ (10 : Int) > 5)) ∧
    ((Expire sampleCache "a" 10).1 = .ok true ∨ (Expire sampleCache "a" 10).1 = .ok false) :=
  ⟨(C6_expire_contract sampleCache "zz" 10).1 (by decide),
   ((C6_expire_contract sampleCache "a" 10).2
     { Value := 7, CreatedAt := 0, Expiration := 5 } (by decide)).1,
   ((C6_expire_contract sampleCache "a" 10).2
     { Value := 7, CreatedAt := 0, Expiration := 5 } (by decide)).2⟩

/-- C7: `GetMulti` returns exactly one element per input key, in input order:
the stored payload when the key is present and fresh at lookup time, and the
`nil` placeholder (`none`) when absent or expired; no error is surfaced (the
result type carries none). -/
theorem C7_getmulti_spec (c : Cache α) (keys : List String) (now : Int) :
    (GetMulti c keys now).1.length = keys.length ∧
    (∀ (i : Nat) (k : String), keys[i]? = some k →
      (GetMulti c keys now).1[i]? = some (
        match lookupKey k c.m with
        | none => none
        | some v => if v.Expiration > 0 ∧ now > v.Expiration then none
            else some v.Value)) := by
  have h := GetMulti_eq c keys now
  refine ⟨by rw [h]; simp, ?_⟩
  intro i k hk
  rw [h]
  simp only [List.getElem?_map, hk, Option.map_some']
  congr 1
  cases hl : lookupKey k c.m with
  | none => simp [Get, hl, swallowErr]
  | some v =>
    by_cases hc : v.Expiration > 0 ∧ now > v.Expiration <;>
      simp [Get, hl, hc, swallowErr]

/-- C7 witness: over the sample cache at time 10, the expired `"a"` gives the
placeholder and the absent `"zz"` gives the placeholder, with result length 2. -/
theorem C7_getmulti_spec_witness :
    (GetMulti sampleCache ["a", "zz"] 10).1.length = 2 ∧
    (GetMulti sampleCache ["a", "zz"] 10).1[0]? = some none ∧
    (GetMulti sampleCache ["a", "zz"] 10).1[1]? = some none :=
  ⟨(C7_getmulti_spec sampleCache ["a", "zz"] 10).1,
   (C7_getmulti_spec sampleCache ["a", "zz"] 10).2 0 "a" rfl,
   (C7_getmulti_spec sampleCache ["a", "zz"] 10).2 1 "zz" rfl⟩

/-- C8: `Delete` on a present key removes the entry and returns no error
(afterwards `IsExist` is `false` and `Get` gives `ErrKeyNotFound`), leaving
all other keys and the configuration unchanged; on an absent key it returns
`ErrKeyNotFound` and leaves the cache entirely unchanged. -/
theorem C8_delete_contract (c : Cache α) (k : String) :
    (∀ v, lookupKey k c.m = some v →
      (Delete c k).1 = none ∧
      lookupKey k (Delete c k).2.m = none ∧
      (IsExist (Delete c k).2 k).1 = false ∧
      (∀ now, (Get (Delete c k).2 k now).1 = .error .ErrKeyNotFound) ∧
      (∀ k', k' ≠ k → lookupKey k' (Delete c k).2.m = lookupKey k' c.m) ∧
      (Delete c k).2.defaultExpiration = c.defaultExpiration ∧
      (Delete c k).2.cleanupInterval = c.cleanupInterval) ∧
    (lookupKey k c.m = none →
      (Delete c k).1 = some .ErrKeyNotFound ∧ (Delete c k).2 = c) := by
  refine ⟨fun v hv => ?_, fun h => ⟨by simp [Delete, h], by simp [Delete, h]⟩⟩
  have h2 : (Delete c k).2 = { c with m := eraseKey k c.m } := by simp [Delete, hv]
  have hl : lookupKey k (Delete c k).2.m = none := by
    rw [h2]
    exact lookupKey_eraseKey_self k c.m
  refine ⟨by simp [Delete, hv], hl, by simp [IsExist, hl], fun now => by simp [Get, hl],
    fun k' hk => ?_, by rw [h2], by rw [h2]⟩
  rw [h2]
  exact lookupKey_eraseKey_ne hk c.m

/-- C8 witness: deleting the present `"a"` and the absent `"zz"`. -/
theorem C8_delete_contract_witness :
    ((Delete sampleCache "a").1 = none ∧
      lookupKey "a" (Delete sampleCache "a").2.m = none ∧
      (IsExist (Delete sampleCache "a").2 "a").1 = false ∧
      (Get (Delete sampleCache "a").2 "a" 3).1 = .error .ErrKeyNotFound ∧
      lookupKey "b" (Delete sampleCache "a").2.m = lookupKey "b" sampleCache.m ∧
      (Delete sampleCache "a").2.defaultExpiration = sampleCache.defaultExpiration) ∧
    ((Delete sampleCache "zz").1 = some .ErrKeyNotFound ∧
      (Delete sampleCache "zz").2 = sampleCache) := by
  have hp := (C8_delete_contract sampleCache "a").1
    { Value := 7, CreatedAt := 0, Expiration := 5 } (by decide)
  have ha := (C8_delete_contract sampleCache "zz").2 (by decide)
  exact ⟨⟨hp.1, hp.2.1, hp.2.2.1, hp.2.2.2.1 3, hp.2.2.2.2.1 "b" (by decide),
    hp.2.2.2.2.2.1⟩, ha⟩

/-- C9: `FlushAll` discards every entry — afterwards `IsExist` is `false` and
`Get` gives `ErrKeyNotFound` for every key, while `defaultExpiration` and
`cleanupInterval` are unchanged. -/
theorem C9_flushall_discards_everything (c : Cache α) (k : String) (now : Int) :
    (IsExist (FlushAll c) k).1 = false ∧
    (Get (FlushAll c) k now).1 = .error .ErrKeyNotFound ∧
    (FlushAll c).defaultExpiration = c.defaultExpiration ∧
    (FlushAll c).cleanupInterval = c.cleanupInterval :=
  ⟨rfl, rfl, rfl, rfl⟩

/-- C10: the read operations `Get`, `GetMulti`, `IsExist` and `Expire` are
side-effect-free: the cache state after the call — every stored entry and the
configuration fields — is exactly the state before, whether or not the call
reports an error. -/
theorem C10_reads_are_pure (c : Cache α) (k : String) (keys : List String)
    (now : Int) :
    (Get c k now).2 = c ∧ (GetMulti c keys now).2 = c ∧
    (IsExist c k).2 = c ∧ (Expire c k now).2 = c :=
  ⟨Get_snd_eq c k now, by rw [GetMulti_eq], rfl, Expire_snd_eq c k now⟩

/-- C5: one iteration of the background sweep, as a step on the cache state:
on an empty map it terminates the task (no further deletions ever happen);
otherwise it deletes exactly the keys whose entries were expired at scan time
and leaves every other entry, and the configuration, unchanged. -/
theorem C5_gc_step_spec (c : Cache α) (now : Int) :
    (c.m = [] → GCstep c now = none) ∧
    (c.m ≠ [] → ∃ c', GCstep c now = some c' ∧
      c'.defaultExpiration = c.defaultExpiration ∧
      c'.cleanupInterval = c.cleanupInterval ∧
      (KeysNodup c.m →
        (∀ k v, lookupKey k c.m = some v →
          lookupKey k c'.m =
            if v.Expiration > 0 ∧ now > v.Expiration then none else some v) ∧
        (∀ k, lookupKey k c.m = none → lookupKey k c'.m = none))) := by
  constructor
  · intro h
    simp [GCstep, h]
  · intro h
    have hne : ¬c.m.isEmpty := by simp [List.isEmpty_iff, h]
    by_cases hek : (expiredKeys c now).isEmpty
    · refine ⟨c, by simp [GCstep, hne, hek], rfl, rfl, fun hn => ⟨?_, fun k hk => hk⟩⟩
      intro k v hkv
      rw [if_neg]
      · exact hkv
      · rintro ⟨h1, h2⟩
        have : k ∈ expiredKeys c now := (mem_expiredKeys_iff hn).mpr ⟨v, hkv, h2, h1⟩
        simp [List.isEmpty_iff] at hek
        simp [hek] at this
    · refine ⟨clearItems c (expiredKeys c now), by simp [GCstep, hne, hek], rfl, rfl,
        fun hn => ⟨?_, ?_⟩⟩
      · intro k v hkv
        have hfold : lookupKey k (clearItems c (expiredKeys c now)).m =
            if k ∈ expiredKeys c now then none else lookupKey k c.m :=
          lookupKey_foldl_eraseKey k (expiredKeys c now) c.m
        by_cases hc : v.Expiration > 0 ∧ now > v.Expiration
        · have hm : k ∈ expiredKeys c now :=
            (mem_expiredKeys_iff hn).mpr ⟨v, hkv, hc.2, hc.1⟩
          rw [hfold, if_pos hm, if_pos hc]
        · have hm : k ∉ expiredKeys c now := by
            intro hk
            obtain ⟨w, hw, h1, h2⟩ := (mem_expiredKeys_iff hn).mp hk
            rw [hkv] at hw
            obtain rfl : v = w := by simpa using hw
            exact hc ⟨h2, h1⟩
          rw [hfold, if_neg hm, if_neg hc, hkv]
      · intro k hk
        have hfold : lookupKey k (clearItems c (expiredKeys c now)).m =
            if k ∈ expiredKeys c now then none else lookupKey k c.m :=
          lookupKey_foldl_eraseKey k (expiredKeys c now) c.m
        rw [hfold]
        by_cases hm : k ∈ expiredKeys c now <;> simp [hm, hk]

/-- C5 witness: a sweep at time 10 over a three-entry cache deletes exactly
the expired `"a"`, keeps the fresh `"b"` and the never-expiring `"c"`, and a
sweep over an empty cache terminates the task. -/
theorem C5_gc_step_spec_witness :
    GCstep (NewCache Nat 0 0) 10 = none ∧
    ∃ c', GCstep sampleGC 10 = some c' ∧
      lookupKey "a" c'.m = none ∧
      lookupKey "b" c'.m = some { Value := 2, CreatedAt := 0, Expiration := 50 } ∧
      lookupKey "c" c'.m = some { Value := 3, CreatedAt := 0, Expiration := 0 } := by
  refine ⟨(C5_gc_step_spec (NewCache Nat 0 0) 10).1 rfl, ?_⟩
  obtain ⟨c', hgc, hde, hci, hchar⟩ :=
    (C5_gc_step_spec sampleGC 10).2 (by simp [sampleGC])
  have h := hchar (by unfold KeysNodup sampleGC; decide)
  refine ⟨c', hgc, ?_, ?_, ?_⟩
  · have := h.1 "a" { Value := 1, CreatedAt := 0, Expiration := 5 } (by decide)
    simpa using this
  · have := h.1 "b" { Value := 2, CreatedAt := 0, Expiration := 50 } (by decide)
    simpa using this
  · have := h.1 "c" { Value := 3, CreatedAt := 0, Expiration := 0 } (by decide)
    simpa using this

end Memcache
